import Mathlib

/-!
# Verification of the trp-framework layered configuration engine

Shallow embedding of the configuration-resolution engine found in the
repository (the YAML/JSON variant `loadConfig`/`deepMerge`/`tryReadFile`/
`findConfigDir`/`applyEnvOverrides`/`configFor`).  JavaScript runtime values
produced by the decoders are modelled by the inductive type `Value`;
JavaScript objects are ordered association lists of string keys.  Filesystem
and decoder access is abstracted into explicit oracle functions passed as
arguments, so every function here is pure and executable.
-/

namespace TRP

/-- A JavaScript number as far as the engine can observe one: finite values
as exact rationals (every numeric literal `Number()` accepts denotes a
rational) plus the two infinities (`Number("Infinity")`/`Number("-Infinity")`).
Rounding of the exact value to the nearest IEEE-754 double — and the
overflow of huge exponents to infinity — is outside the model, and exact at
the magnitudes the engine meets.  `NaN` needs no constructor: the
coercion's `Number.isNaN` guard keeps it out of the tree (modelled as the
parser returning `none`), `-0` is identified with `0`. -/
inductive JsNum where
  | fin : ℚ → JsNum
  | inf : JsNum
  | negInf : JsNum
  deriving Repr, DecidableEq

instance (n : Nat) : OfNat JsNum n := ⟨.fin (OfNat.ofNat n)⟩

/-- JavaScript unary minus on a number. -/
def JsNum.neg : JsNum → JsNum
  | .fin q => .fin (-q)
  | .inf => .negInf
  | .negInf => .inf

/-- A JavaScript value as produced by the JSON/YAML decoders: `null`,
booleans, numbers (see `JsNum`), strings, arrays, and objects.  An object
is its ordered list of own enumerable properties, mirroring JavaScript
property insertion order. -/
inductive Value where
  | null : Value
  | bool : Bool → Value
  | num : JsNum → Value
  | str : String → Value
  | arr : List Value → Value
  | obj : List (String × Value) → Value
  deriving Repr

/-- `isObject` from the source: `!!x && typeof x === 'object' && !Array.isArray(x)`.
Only plain objects qualify; `null`, arrays and scalars do not. -/
def Value.isObject : Value → Bool
  | .obj _ => true
  | _ => false

/-- Property read `o[k]` on an object's entry list: the value of the first
entry with key `k` (JavaScript objects have unique keys, so "first" is "the"). -/
def lookupE (es : List (String × Value)) (k : String) : Option Value :=
  match es with
  | [] => none
  | (k', v) :: rest => if k' = k then some v else lookupE rest k

/-- Property write `o[k] = v` on an object's entry list: updates the first
entry with key `k` in place (keeping its position, as JavaScript does), or
appends a fresh entry at the end when the key is absent. -/
def upsertE (es : List (String × Value)) (k : String) (v : Value) : List (String × Value) :=
  match es with
  | [] => [(k, v)]
  | (k', v') :: rest => if k' = k then (k', v) :: rest else (k', v') :: upsertE rest k v

mutual

/-- `deepMerge(base, override)` from the source:
if either side is not a plain object, return `override ?? base` (so a `null`
override yields `base`); otherwise start from a shallow copy of `base` and
fold the entries of `override` into it with `mergeLoop`. -/
def deepMerge : Value → Value → Value
  | .obj bs, .obj os => .obj (mergeLoop bs os)
  | base, override => match override with
    | .null => base
    | o => o

/-- The `for (const [k, v] of Object.entries(override))` loop body of
`deepMerge`: for each override entry, recurse when both the accumulated value
and the override value are plain objects, otherwise the override value wins. -/
def mergeLoop (acc : List (String × Value)) : List (String × Value) → List (String × Value)
  | [] => acc
  | (k, v) :: rest =>
      let newV := match lookupE acc k with
        | some bv => if bv.isObject && v.isObject then deepMerge bv v else v
        | none => v
      mergeLoop (upsertE acc k newV) rest

end

/-- JavaScript truthiness of a decoded value, as used by the source's
`data ? deepMerge(acc, data) : acc`, `if (data)` and `if (secrets)` guards:
`null`, `false`, `0` and `""` are falsy, infinities, every other number and
every object/array are truthy.  (`NaN`, the one further falsy number, has
no representation in the model: the coercion cannot store it.) -/
def Value.truthy : Value → Bool
  | .null => false
  | .bool b => b
  | .num (.fin q) => q ≠ 0
  | .num .inf => true
  | .num .negInf => true
  | .str s => s ≠ ""
  | .arr _ => true
  | .obj _ => true

/-- Property read on an arbitrary value: objects look up their entry list;
reading a property of a primitive or array yields `undefined` (modelled
`none`; the claims never exercise string/array index properties). -/
def lookupV (v : Value) (k : String) : Option Value :=
  match v with
  | .obj es => lookupE es k
  | _ => none

/-- Chained property reads `v[k₁][k₂]…`, `none` as soon as a step is absent. -/
def lookupPath (v : Value) : List String → Option Value
  | [] => some v
  | k :: rest =>
      match lookupV v k with
      | some c => lookupPath c rest
      | none => none

/-- Property assignment `cfg[k] = v`.  On a non-object the assignment leaves
the value unchanged (the engine only ever assigns onto objects). -/
def setProp (cfg : Value) (k : String) (v : Value) : Value :=
  match cfg with
  | .obj es => .obj (upsertE es k v)
  | other => other

/-- Object spread `{...v}`: the entry list for objects, no own enumerable
entries for primitives (string/array index properties are not exercised by
the engine, which only spreads composed configuration objects). -/
def spreadEntries (v : Value) : List (String × Value) :=
  match v with
  | .obj es => es
  | _ => []

/- ------------------------------------------------------------------------ -/
/-  JavaScript string primitives                                             -/
/-  (modelled over the character list of the string so that every use is     -/
/-  executable by the kernel; the engine only handles ASCII identifiers,     -/
/-  file names and configuration keys, where these agree with JavaScript's   -/
/-  UTF-16 code-unit semantics)                                              -/
/- ------------------------------------------------------------------------ -/

/-- `pat` is a leading segment of `cs`. -/
def charsLeadWith : List Char → List Char → Bool
  | [], _ => true
  | _ :: _, [] => false
  | p :: ps, c :: cs => p = c && charsLeadWith ps cs

/-- JavaScript `s.startsWith(t)`. -/
def jsStartsWith (s t : String) : Bool :=
  charsLeadWith t.data s.data

/-- JavaScript `s.endsWith(t)`. -/
def jsEndsWith (s t : String) : Bool :=
  charsLeadWith t.data.reverse s.data.reverse

/-- JavaScript `s.slice(n)`. -/
def jsDrop (s : String) (n : Nat) : String :=
  ⟨s.data.drop n⟩

/-- Drop the last `n` characters (the effect of replacing a recognized
`n`-character suffix by the empty string). -/
def jsDropRight (s : String) (n : Nat) : String :=
  ⟨s.data.take (s.data.length - n)⟩

/-- String length (`s.length`). -/
def strLen (s : String) : Nat :=
  s.data.length

/-- JavaScript `s.trim()`: remove leading and trailing whitespace (the
ASCII whitespace fragment; configuration keys never carry the exotic
Unicode spaces where JavaScript's set is wider). -/
def jsTrim (s : String) : String :=
  ⟨((s.data.dropWhile Char.isWhitespace).reverse.dropWhile Char.isWhitespace).reverse⟩

/-- Splitting on the literal delimiter `__`, leftmost-first and
non-overlapping, accumulating the current segment in reverse. -/
def splitDunderAux (acc : List Char) : List Char → List (List Char)
  | '_' :: '_' :: rest => acc.reverse :: splitDunderAux [] rest
  | c :: rest => splitDunderAux (c :: acc) rest
  | [] => [acc.reverse]

/-- JavaScript `s.split("__")` (never the empty list: `"".split("__")` is
`[""]`). -/
def jsSplitDunder (s : String) : List String :=
  (splitDunderAux [] s.data).map (fun cs => ⟨cs⟩)

/-- Accumulating decimal digit parse; any non-digit character rejects
(the empty list parses as `0`; callers impose their own non-emptiness). -/
def digitsAux (acc : Nat) : List Char → Option Nat
  | [] => some acc
  | c :: rest =>
      if '0' ≤ c ∧ c ≤ '9' then digitsAux (acc * 10 + (c.toNat - 48)) rest
      else none

/-- The value of one digit in bases up to 16, letters case-insensitive. -/
def hexDigitVal? (c : Char) : Option Nat :=
  if '0' ≤ c ∧ c ≤ '9' then some (c.toNat - 48)
  else if 'a' ≤ c ∧ c ≤ 'f' then some (c.toNat - 87)
  else if 'A' ≤ c ∧ c ≤ 'F' then some (c.toNat - 55)
  else none

/-- Accumulating digit parse in a given radix; any out-of-range digit
rejects. -/
def radixDigitsAux (radix : Nat) (acc : Nat) : List Char → Option Nat
  | [] => some acc
  | c :: rest =>
      match hexDigitVal? c with
      | some d => if d < radix then radixDigitsAux radix (acc * radix + d) rest else none
      | none => none

/-- Parse a non-empty digit string in a given radix. -/
def radixVal? (radix : Nat) (cs : List Char) : Option Nat :=
  match cs with
  | [] => none
  | _ => radixDigitsAux radix 0 cs

/-- Split at the first `.`: the part before, and the part after when a dot
is present at all. -/
def spanUntilDot : List Char → List Char × Option (List Char)
  | [] => ([], none)
  | '.' :: rest => ([], some rest)
  | c :: rest =>
      let (b, a) := spanUntilDot rest
      (c :: b, a)

/-- Split at the first exponent marker `e`/`E`. -/
def spanUntilExp : List Char → List Char × Option (List Char)
  | [] => ([], none)
  | c :: rest =>
      if c = 'e' ∨ c = 'E' then ([], some rest)
      else
        let (b, a) := spanUntilExp rest
        (c :: b, a)

/-- The decimal-mantissa forms `Number()` accepts, without sign or
exponent: `digits`, `digits.`, `digits.digits`, `.digits`.  Returns the
digits' combined value and the number of fraction digits. -/
def parseDecMantissa (cs : List Char) : Option (Nat × Nat) :=
  match spanUntilDot cs with
  | (intPart, none) =>
      if intPart = [] then none
      else (digitsAux 0 intPart).map (fun v => (v, 0))
  | (intPart, some fracPart) =>
      if intPart = [] && fracPart = [] then none
      else (digitsAux 0 (intPart ++ fracPart)).map (fun v => (v, fracPart.length))

/-- The exponent forms `Number()` accepts after `e`/`E`: decimal digits
with an optional sign. -/
def parseExp? (cs : List Char) : Option Int :=
  match cs with
  | '+' :: rest => if rest = [] then none else (digitsAux 0 rest).map Int.ofNat
  | '-' :: rest => if rest = [] then none else (digitsAux 0 rest).map (fun n => -(n : Int))
  | _ => if cs = [] then none else (digitsAux 0 cs).map Int.ofNat

/-- The exact value `m · 10^(exp − scale)` of a decimal mantissa with
`scale` fraction digits and exponent `exp`. -/
def decValue (m scale : Nat) (exp : Int) : ℚ :=
  let e : Int := exp - scale
  mkRat (m * 10 ^ e.toNat) (10 ^ (-e).toNat)

/-- The unsigned decimal forms of `Number()`'s string grammar: the literal
`Infinity`, or a decimal mantissa with an optional exponent part. -/
def parseUnsignedDec (cs : List Char) : Option JsNum :=
  if cs = "Infinity".data then some .inf
  else
    match spanUntilExp cs with
    | (mant, none) => (parseDecMantissa mant).map (fun md => .fin (decValue md.1 md.2 0))
    | (mant, some expPart) =>
        match parseDecMantissa mant, parseExp? expPart with
        | some md, some e => some (.fin (decValue md.1 md.2 e))
        | _, _ => none

/-- ASCII lower-casing of one character. -/
def lowerChar (c : Char) : Char :=
  if 'A' ≤ c ∧ c ≤ 'Z' then Char.ofNat (c.toNat + 32) else c

/-- JavaScript `s.toLowerCase()` on the ASCII fragment. -/
def jsToLower (s : String) : String :=
  ⟨s.data.map lowerChar⟩

/- ------------------------------------------------------------------------ -/
/-  Source Reader: `tryReadFile` and `findConfigDir`                         -/
/- ------------------------------------------------------------------------ -/

/-- Outcome of the filesystem primitives `existsSync`/`readFileSync` at one
path: the file is missing, an I/O error is thrown, or the raw text is read. -/
inductive FsResult where
  | missing : FsResult
  | ioError : FsResult
  | content : String → FsResult

/-- `tryReadFile(file)` from the source, with the filesystem and the two
text decoders abstracted as oracles.  A missing file, a thrown I/O error,
empty (whitespace-only) content, and a decode failure (`none` from the
decoder, standing for a thrown parse error that the `catch` downgrades)
all yield `none` (= `undefined`); `.json` files use the JSON decoder,
everything else the YAML decoder. -/
def tryReadFile (fsRead : String → FsResult)
    (parseJSON parseYAML : String → Option Value) (file : String) : Option Value :=
  match fsRead file with
  | .missing => none
  | .ioError => none
  | .content raw =>
      if jsTrim raw = "" then none
      else if jsEndsWith file ".json" then parseJSON raw
      else parseYAML raw

/-- The bounded upward walk of `findConfigDir`.  A path is its list of
components, deepest first, so the parent of `c :: p` is `p` and the
filesystem root (its own parent) is `[]`; `existsDir` is the oracle for
`fs.existsSync(p) && fs.statSync(p).isDirectory()`.  Each iteration first
checks the candidate `cur/config`, then stops if `cur` is the root,
otherwise ascends. -/
def findConfigDir (existsDir : List String → Bool) : Nat → List String → Option (List String)
  | 0, _ => none
  | n + 1, cur =>
      if existsDir ("config" :: cur) then some ("config" :: cur)
      else
        match cur with
        | [] => none
        | _ :: parent => findConfigDir existsDir n parent

/-- `findConfigDir(start)` from the source: the walk with its literal bound
of 6 iterations. -/
def findConfigRoot (existsDir : List String → Bool) (start : List String) : Option (List String) :=
  findConfigDir existsDir 6 start

/- ------------------------------------------------------------------------ -/
/-  Environment Override Applier                                             -/
/- ------------------------------------------------------------------------ -/

/-- JavaScript `Number(s)` string conversion (the ECMAScript
`StringNumericLiteral` grammar): the trimmed string `""` converts to `0`;
an optionally signed decimal literal — digits with optional fraction part,
optional `e`/`E` exponent, or the literal `Infinity`; or an unsigned
`0x`/`0X` hex, `0o`/`0O` octal, `0b`/`0B` binary integer literal.  Any
other string is `NaN`, modelled as `none` (numeric separators, trailing
garbage, signed radix prefixes, lowercase `infinity` all reject, as in
JavaScript). -/
def jsNumber? (s : String) : Option JsNum :=
  let t := jsTrim s
  match t.data with
  | [] => some (.fin 0)
  | '+' :: rest => parseUnsignedDec rest
  | '-' :: rest => (parseUnsignedDec rest).map JsNum.neg
  | '0' :: c :: rest =>
      if c = 'x' ∨ c = 'X' then (radixVal? 16 rest).map (fun n => .fin n)
      else if c = 'o' ∨ c = 'O' then (radixVal? 8 rest).map (fun n => .fin n)
      else if c = 'b' ∨ c = 'B' then (radixVal? 2 rest).map (fun n => .fin n)
      else parseUnsignedDec ('0' :: c :: rest)
  | cs => parseUnsignedDec cs

/-- The leaf coercion of `applyEnvOverrides`, in source order: literal
`"true"`/`"false"` become booleans, then a value `Number` accepts becomes a
number, anything else stays the unchanged string. -/
def coerceEnv (val : String) : Value :=
  if val = "true" then .bool true
  else if val = "false" then .bool false
  else
    match jsNumber? val with
    | some n => .num n
    | none => .str val

/-- Segment normalization `pathParts[i].replace(/_/g, '').trim()`: delete
every underscore, then trim surrounding whitespace.  No case folding. -/
def normSeg (s : String) : String :=
  jsTrim ⟨s.data.filter (fun c => c ≠ '_')⟩

/-- The cursor walk of `applyEnvOverrides` for one environment variable:
descend along the normalized segments, reusing an existing plain-object
child and replacing anything else by a fresh empty object, and write the
coerced value at the final segment. -/
def setPathE (es : List (String × Value)) : List String → String → List (String × Value)
  | [], _ => es
  | [seg], val => upsertE es (normSeg seg) (coerceEnv val)
  | seg :: seg2 :: rest, val =>
      let k := normSeg seg
      let child : List (String × Value) :=
        match lookupE es k with
        | some (.obj ces) => ces
        | _ => []
      upsertE es k (.obj (setPathE child (seg2 :: rest) val))

/-- `applyEnvOverrides(cfg, prefix)` from the source, with the process
environment passed explicitly as its ordered entry list.  Variables whose
name starts with `prefix` are split on `__` past the prefix and written into
a shallow copy of `cfg`; with no matching variable the input is returned
unchanged. -/
def applyEnvOverrides (cfg : Value) (pre : String) (env : List (String × String)) : Value :=
  let entries := (env.filter (fun kv => jsStartsWith kv.1 pre)).map
    (fun kv => (jsSplitDunder (jsDrop kv.1 (strLen pre)), kv.2))
  if entries.isEmpty then cfg
  else
    let out := spreadEntries cfg
    .obj (entries.foldl (fun acc e => setPathE acc e.1 e.2) out)

/- ------------------------------------------------------------------------ -/
/-  Layer Composer: `loadConfig`                                             -/
/- ------------------------------------------------------------------------ -/

/-- The fold step of `files.reduce((acc, f) => { const data = tryReadFile(f);
return data ? deepMerge(acc, data) : acc; }, base)`: an absent or falsy
layer is a no-op, a present layer is deep-merged over the accumulator. -/
def layerStep (acc : Value) (d : Option Value) : Value :=
  match d with
  | some data => if data.truthy then deepMerge acc data else acc
  | none => acc

/-- `(cfg.modules ?? {})`: the `modules` property of the configuration, with
`null`/`undefined` replaced by an empty object. -/
def modulesOf (cfg : Value) : Value :=
  match cfg with
  | .obj es =>
      match lookupE es "modules" with
      | some .null => .obj []
      | some v => v
      | none => .obj []
  | _ => .obj []

/-- `((cfg.modules ?? {})[moduleName] ?? {})`: the raw sub-configuration of
one module, an empty object when the module (or the whole `modules` mapping)
is absent or `null`. -/
def moduleRaw (cfg : Value) (name : String) : Value :=
  match modulesOf cfg with
  | .obj es =>
      match lookupE es name with
      | some .null => .obj []
      | some v => v
      | none => .obj []
  | _ => .obj []

/-- Extension test of the per-module file loop: only `.yaml`/`.yml`/`.json`
directory entries are considered. -/
def hasModuleExt (entry : String) : Bool :=
  jsEndsWith entry ".yaml" || jsEndsWith entry ".yml" || jsEndsWith entry ".json"

/-- `entry.replace(/\.(yaml|yml|json)$/i, '')` on an entry that passed the
extension test: strip the final recognized extension. -/
def stripExt (entry : String) : String :=
  if jsEndsWith entry ".yaml" then jsDropRight entry 5
  else if jsEndsWith entry ".yml" then jsDropRight entry 4
  else if jsEndsWith entry ".json" then jsDropRight entry 5
  else entry

/-- The environment the engine resolves against: the result of
`tryReadFile` at each path, whether the `modules` directory exists, its
directory listing, and the process environment's entry list. -/
structure World where
  tryRead : String → Option Value
  modulesDirExists : Bool
  moduleEntries : List String
  env : List (String × String)

/-- One iteration of the per-module file loop of `loadConfig`: skip entries
without a recognized extension, read `modules/<entry>`, and when data is
present merge it under `modules[<entry-without-extension>]` (over whatever
was already there), leaving every other top-level key alone. -/
def mergeModuleFile (w : World) (configDir : String) (cfg : Value) (entry : String) : Value :=
  if hasModuleExt entry then
    match w.tryRead (configDir ++ "/modules/" ++ entry) with
    | some data =>
        if data.truthy then
          let modName := stripExt entry
          let prev := moduleRaw cfg modName
          setProp cfg "modules"
            (.obj (upsertE (spreadEntries (modulesOf cfg)) modName (deepMerge prev data)))
        else cfg
    | none => cfg
  else cfg

/-- The resolution pipeline of `loadConfig` (everything after the cache
check, with the resolution context — config directory, tier, node, prefix —
already computed): fold seed → base → tier file → node file → shared
`modules.yaml` through `layerStep`, then the per-module files, then
`secrets.yaml`, then the environment overrides. -/
def loadConfigPure (w : World) (configDir envOpt nodeOpt pre : String) : Value :=
  let env := jsToLower envOpt
  let node := jsToLower nodeOpt
  let files := [
    configDir ++ "/base.yaml",
    configDir ++ "/env/" ++ env ++ ".yaml",
    configDir ++ "/nodes/" ++ node ++ ".yaml",
    configDir ++ "/modules.yaml"]
  let base : Value := .obj [("env", .str env), ("node", .str node), ("modules", .obj [])]
  let cfg := files.foldl (fun acc f => layerStep acc (w.tryRead f)) base
  let cfg := if w.modulesDirExists then
      w.moduleEntries.foldl (fun c entry => mergeModuleFile w configDir c entry) cfg
    else cfg
  let cfg := layerStep cfg (w.tryRead (configDir ++ "/secrets.yaml"))
  applyEnvOverrides cfg pre w.env

/-- `loadConfig` with its module-level cache made explicit: given the
current cache slot, return the result, the new cache slot, and whether this
call touched the filesystem/environment (`true` exactly when a full
resolution ran).  The source's guard is `if (cachedConfig)` — a truthiness
test — but every value the engine can store is truthy (layers whose decoded
data is falsy are skipped by the `data ?` guards, and the seed is an
object), so a filled slot is exactly a hit. -/
def loadConfigCached (cache : Option Value) (w : World)
    (configDir envOpt nodeOpt pre : String) : Value × Option Value × Bool :=
  match cache with
  | some c => (c, some c, false)
  | none =>
      let c := loadConfigPure w configDir envOpt nodeOpt pre
      (c, some c, true)

/- ------------------------------------------------------------------------ -/
/-  Module Scoper: `configFor`                                               -/
/- ------------------------------------------------------------------------ -/

/-- `configFor(moduleName, schema, defaults?)` against an already-resolved
configuration.  The schema is abstracted as Zod's `parse`: a function from
the raw merged value to `some` typed/defaulted value or `none` for a thrown
validation error.  With truthy `defaults` the raw module data is deep-merged
over them; otherwise the raw data is validated directly. -/
def configFor (cfg : Value) (moduleName : String)
    (schemaParse : Value → Option Value) (defaults : Option Value) : Option Value :=
  let raw := moduleRaw cfg moduleName
  let merged :=
    match defaults with
    | some d => if d.truthy then deepMerge d raw else raw
    | none => raw
  schemaParse merged

/- ------------------------------------------------------------------------ -/
/-  Specification-side helper definitions                                    -/
/- ------------------------------------------------------------------------ -/

/-- The keys of an object's entry list, in property order. -/
def keysE (es : List (String × Value)) : List String :=
  es.map Prod.fst

/-- The value written for one override entry of `deepMerge`'s loop, as a
function of the accumulator's current value at that key: recurse when both
sides are plain objects, otherwise the override value. -/
def mergeStep (bv? : Option Value) (v : Value) : Value :=
  match bv? with
  | some bv => if bv.isObject && v.isObject then deepMerge bv v else v
  | none => v

/-- A flat entry list: no value is itself a plain object. -/
def FlatE (es : List (String × Value)) : Prop :=
  ∀ p ∈ es, p.2.isObject = false

instance decFlatE (es : List (String × Value)) : Decidable (FlatE es) :=
  inferInstanceAs (Decidable (∀ p ∈ es, p.2.isObject = false))

/- ------------------------------------------------------------------------ -/
/-  Concrete instances exercised by the claims                               -/
/- ------------------------------------------------------------------------ -/

/-- The spec's precedence example: base `{a:1,b:{x:1}}`, tier layer
`{b:{x:2,y:3}}` at `env/dev.yaml`, node layer `{b:{y:4}}` at
`nodes/n1.yaml`; no per-module files, no secrets, empty environment. -/
def wC1 : World where
  tryRead := fun f =>
    if f = "config/base.yaml" then some (.obj [("a", .num 1), ("b", .obj [("x", .num 1)])])
    else if f = "config/env/dev.yaml" then some (.obj [("b", .obj [("x", .num 2), ("y", .num 3)])])
    else if f = "config/nodes/n1.yaml" then some (.obj [("b", .obj [("y", .num 4)])])
    else none
  modulesDirExists := false
  moduleEntries := []
  env := []

/-- Base configuration `{db:{mysql:{port:3306}}}` of the spec's
environment-override example. -/
def cfgC3 : Value :=
  .obj [("db", .obj [("mysql", .obj [("port", .num 3306)])])]

/-- Associativity counterexample, layer A: `{k:{a:1}}`. -/
def cexA : Value := .obj [("k", .obj [("a", .num 1)])]

/-- Associativity counterexample, layer B: `{k:5}` (a mapping replaced by a
scalar). -/
def cexB : Value := .obj [("k", .num 5)]

/-- Associativity counterexample, layer C: `{k:{b:2}}` (the scalar replaced
by a mapping again). -/
def cexC : Value := .obj [("k", .obj [("b", .num 2)])]

/-- The spec's namespacing example: a `modules` directory containing exactly
`foo.yaml` with content `{limit:5}`. -/
def wC9 : World where
  tryRead := fun f =>
    if f = "config/modules/foo.yaml" then some (.obj [("limit", .num 5)])
    else none
  modulesDirExists := true
  moduleEntries := ["foo.yaml"]
  env := []

/-- A schema with its own defaults, in the style of a Zod object schema all
of whose fields carry `.default(...)`: parsing never fails and fills
`limit: 5` for a missing field. -/
def schemaWithDefaults : Value → Option Value :=
  fun v => some (deepMerge (.obj [("limit", .num 5)]) v)

/-- A schema requiring a positive finite `limit` field, rejecting anything
else. -/
def schemaPositiveLimit : Value → Option Value :=
  fun v =>
    match lookupV v "limit" with
    | some (.num (.fin q)) => if 0 < q then some v else none
    | _ => none

/-- A world where only the base file and the secrets file exist and both
set the same scalar key, to observe that the secrets layer lands last. -/
def wC1s : World where
  tryRead := fun f =>
    if f = "config/base.yaml" then some (.obj [("s", .num 1)])
    else if f = "config/secrets.yaml" then some (.obj [("s", .num 2)])
    else none
  modulesDirExists := false
  moduleEntries := []
  env := []

/- ------------------------------------------------------------------------ -/
/-  Lemmas: lookup, upsert and keys                                          -/
/- ------------------------------------------------------------------------ -/

theorem keysE_nil : keysE [] = [] := rfl

theorem keysE_cons (a : String) (b : Value) (tl : List (String × Value)) :
    keysE ((a, b) :: tl) = a :: keysE tl := rfl

theorem lookupE_upsertE_self (es : List (String × Value)) (k : String) (v : Value) :
    lookupE (upsertE es k v) k = some v := by
  induction es with
  | nil => simp [upsertE, lookupE]
  | cons hd tl ih =>
      obtain ⟨k', v'⟩ := hd
      by_cases h : k' = k <;> simp [upsertE, lookupE, h, ih]

theorem lookupE_upsertE_ne (es : List (String × Value)) {k k' : String} (v : Value)
    (h : k' ≠ k) : lookupE (upsertE es k v) k' = lookupE es k' := by
  have h' : ¬ k = k' := fun hh => h hh.symm
  induction es with
  | nil => simp [upsertE, lookupE, h']
  | cons hd tl ih =>
      obtain ⟨a, b⟩ := hd
      by_cases ha : a = k
      · subst ha
        simp [upsertE, lookupE, h']
      · by_cases ha' : a = k' <;> simp [upsertE, lookupE, ha, ha', h, h', ih]

theorem keysE_upsertE_mem (es : List (String × Value)) {k : String} (v : Value)
    (h : k ∈ keysE es) : keysE (upsertE es k v) = keysE es := by
  induction es with
  | nil => simp [keysE_nil] at h
  | cons hd tl ih =>
      obtain ⟨a, b⟩ := hd
      by_cases ha : a = k
      · simp [upsertE, keysE_cons, ha]
      · have h' : k ∈ keysE tl := by
          rcases (List.mem_cons.mp (keysE_cons a b tl ▸ h)) with h1 | h2
          · exact absurd h1.symm ha
          · exact h2
        simp [upsertE, keysE_cons, ha, ih h']

theorem keysE_upsertE_not_mem (es : List (String × Value)) {k : String} (v : Value)
    (h : k ∉ keysE es) : keysE (upsertE es k v) = keysE es ++ [k] := by
  induction es with
  | nil => simp [upsertE, keysE_nil, keysE_cons]
  | cons hd tl ih =>
      obtain ⟨a, b⟩ := hd
      have ha : a ≠ k := by
        intro hh
        exact h (keysE_cons a b tl ▸ List.mem_cons.mpr (Or.inl hh.symm))
      have h' : k ∉ keysE tl := by
        intro hh
        exact h (keysE_cons a b tl ▸ List.mem_cons.mpr (Or.inr hh))
      simp [upsertE, keysE_cons, ha, ih h']

theorem lookupE_eq_none_iff (es : List (String × Value)) (k : String) :
    lookupE es k = none ↔ k ∉ keysE es := by
  induction es with
  | nil => simp [lookupE, keysE_nil]
  | cons hd tl ih =>
      obtain ⟨a, b⟩ := hd
      by_cases ha : a = k
      · simp [lookupE, keysE_cons, List.mem_cons, ha]
      · have ha' : ¬ k = a := fun hh => ha hh.symm
        simp only [lookupE, keysE_cons, List.mem_cons, ha, if_false, ih]
        tauto

theorem nodup_keysE_upsertE (es : List (String × Value)) (k : String) (v : Value)
    (h : (keysE es).Nodup) : (keysE (upsertE es k v)).Nodup := by
  by_cases hk : k ∈ keysE es
  · rw [keysE_upsertE_mem es v hk]; exact h
  · rw [keysE_upsertE_not_mem es v hk]
    simp only [List.nodup_append, List.nodup_cons, List.nodup_nil]
    exact ⟨h, by simp, by simpa [List.disjoint_singleton] using hk⟩

/- ------------------------------------------------------------------------ -/
/-  Lemmas: the deep-merge loop                                              -/
/- ------------------------------------------------------------------------ -/

theorem mergeLoop_nil (acc : List (String × Value)) : mergeLoop acc [] = acc := by
  simp [mergeLoop]

theorem mergeLoop_cons (acc tl : List (String × Value)) (k : String) (v : Value) :
    mergeLoop acc ((k, v) :: tl)
      = mergeLoop (upsertE acc k (mergeStep (lookupE acc k) v)) tl := by
  cases h : lookupE acc k <;> simp [mergeLoop, mergeStep, h]

/-- Pointwise description of the merge loop: with duplicate-free override
keys, the value at `k` after the loop is the override's value at `k` pushed
through `mergeStep` against the accumulator's original value, or the
accumulator's value when the override does not mention `k`. -/
theorem lookupE_mergeLoop (os : List (String × Value)) (acc : List (String × Value))
    (k : String) (hnd : (keysE os).Nodup) :
    lookupE (mergeLoop acc os) k
      = match lookupE os k with
        | some v => some (mergeStep (lookupE acc k) v)
        | none => lookupE acc k := by
  induction os generalizing acc with
  | nil => simp [mergeLoop_nil, lookupE]
  | cons hd tl ih =>
      obtain ⟨a, b⟩ := hd
      rw [keysE_cons] at hnd
      have hnd' : (keysE tl).Nodup := (List.nodup_cons.mp hnd).2
      have hna : a ∉ keysE tl := (List.nodup_cons.mp hnd).1
      rw [mergeLoop_cons, ih _ hnd']
      by_cases hk : a = k
      · subst hk
        have h0 : lookupE tl a = none := (lookupE_eq_none_iff tl a).mpr hna
        simp [lookupE, h0, lookupE_upsertE_self]
      · have hk' : k ≠ a := fun hh => hk hh.symm
        rw [lookupE_upsertE_ne acc _ hk']
        simp [lookupE, hk]

/-- Keys after the merge loop: the accumulator's keys in their order,
then the override's fresh keys in theirs. -/
theorem keysE_mergeLoop (os : List (String × Value)) (acc : List (String × Value))
    (hnd : (keysE os).Nodup) :
    keysE (mergeLoop acc os)
      = keysE acc ++ (keysE os).filter (fun a => decide (a ∉ keysE acc)) := by
  induction os generalizing acc with
  | nil => simp [mergeLoop_nil, keysE_nil]
  | cons hd tl ih =>
      obtain ⟨a, b⟩ := hd
      rw [keysE_cons] at hnd
      have hnd' : (keysE tl).Nodup := (List.nodup_cons.mp hnd).2
      have hna : a ∉ keysE tl := (List.nodup_cons.mp hnd).1
      rw [mergeLoop_cons, ih _ hnd']
      by_cases hk : a ∈ keysE acc
      · rw [keysE_upsertE_mem acc _ hk]
        simp [keysE_cons, List.filter_cons, hk]
      · rw [keysE_upsertE_not_mem acc _ hk]
        simp [keysE_cons, List.filter_cons, hk]
        apply List.filter_congr
        intro x hx
        have hxa : x ≠ a := fun hh => hna (hh ▸ hx)
        simp [hxa]

/-- The merge loop keeps keys duplicate-free. -/
theorem nodup_keysE_mergeLoop (os acc : List (String × Value))
    (hacc : (keysE acc).Nodup) (hos : (keysE os).Nodup) :
    (keysE (mergeLoop acc os)).Nodup := by
  rw [keysE_mergeLoop os acc hos]
  refine List.Nodup.append hacc (hos.filter _) ?_
  intro x hx1 hx2
  have := List.of_mem_filter hx2
  simp at this
  exact this hx1

theorem lookupE_flat {es : List (String × Value)} {k : String} {v : Value}
    (hf : FlatE es) (h : lookupE es k = some v) : v.isObject = false := by
  induction es with
  | nil => simp [lookupE] at h
  | cons hd tl ih =>
      obtain ⟨a, b⟩ := hd
      by_cases ha : a = k
      · simp [lookupE, ha] at h
        exact h ▸ hf (a, b) (by simp)
      · simp [lookupE, ha] at h
        exact ih (fun p hp => hf p (by simp [hp])) h

theorem flatE_upsertE {es : List (String × Value)} {k : String} {v : Value}
    (hf : FlatE es) (hv : v.isObject = false) : FlatE (upsertE es k v) := by
  induction es with
  | nil =>
      intro p hp
      simp [upsertE] at hp
      simp [hp, hv]
  | cons hd tl ih =>
      obtain ⟨a, b⟩ := hd
      have hfb : b.isObject = false := hf (a, b) (by simp)
      have hftl : FlatE tl := fun p hp => hf p (by simp [hp])
      intro p hp
      by_cases ha : a = k
      · simp [upsertE, ha] at hp
        rcases hp with hp | hp
        · simp [hp, hv]
        · exact hftl p hp
      · simp [upsertE, ha] at hp
        rcases hp with hp | hp
        · simp [hp, hfb]
        · exact ih hftl p hp

/-- The merge loop of two flat entry lists is flat. -/
theorem flatE_mergeLoop {os acc : List (String × Value)}
    (hacc : FlatE acc) (hos : FlatE os) : FlatE (mergeLoop acc os) := by
  induction os generalizing acc with
  | nil => simpa [mergeLoop_nil] using hacc
  | cons hd tl ih =>
      obtain ⟨a, b⟩ := hd
      have hb : b.isObject = false := hos (a, b) (by simp)
      have htl : FlatE tl := fun p hp => hos p (by simp [hp])
      rw [mergeLoop_cons]
      refine ih ?_ htl
      have hstep : mergeStep (lookupE acc a) b = b := by
        cases h : lookupE acc a with
        | none => simp [mergeStep]
        | some bv => simp [mergeStep, hb]
      rw [hstep]
      exact flatE_upsertE hacc hb

/-- Pointwise description of the merge loop against a flat override: the
override simply wins at its keys (no recursion can fire). -/
theorem lookupE_mergeLoop_flat (os acc : List (String × Value)) (k : String)
    (hnd : (keysE os).Nodup) (hos : FlatE os) :
    lookupE (mergeLoop acc os) k
      = match lookupE os k with
        | some v => some v
        | none => lookupE acc k := by
  rw [lookupE_mergeLoop os acc k hnd]
  cases h : lookupE os k with
  | none => rfl
  | some v =>
      have hv : v.isObject = false := lookupE_flat hos h
      cases hb : lookupE acc k with
      | none => simp [mergeStep]
      | some bv => simp [mergeStep, hv]

/- ------------------------------------------------------------------------ -/
/-  Lemmas: extensionality and flat associativity                            -/
/- ------------------------------------------------------------------------ -/

/-- An entry list with duplicate-free keys is determined by its key order
and its lookup function. -/
theorem entries_ext (l1 : List (String × Value)) (l2 : List (String × Value))
    (hk : keysE l1 = keysE l2) (hl : ∀ k, lookupE l1 k = lookupE l2 k)
    (hnd : (keysE l1).Nodup) : l1 = l2 := by
  induction l1 generalizing l2 with
  | nil =>
      cases l2 with
      | nil => rfl
      | cons hd2 tl2 => obtain ⟨a, b⟩ := hd2; simp [keysE_nil, keysE_cons] at hk
  | cons hd tl ih =>
      obtain ⟨a, b⟩ := hd
      cases l2 with
      | nil => simp [keysE_nil, keysE_cons] at hk
      | cons hd2 tl2 =>
          obtain ⟨a2, b2⟩ := hd2
          rw [keysE_cons, keysE_cons] at hk
          have ha : a = a2 := by simpa using List.head_eq_of_cons_eq hk
          have htlk : keysE tl = keysE tl2 := List.tail_eq_of_cons_eq hk
          subst ha
          have hb : b = b2 := by
            have := hl a
            simpa [lookupE] using this
          subst hb
          rw [keysE_cons] at hnd
          have hna : a ∉ keysE tl := (List.nodup_cons.mp hnd).1
          have hnd' : (keysE tl).Nodup := (List.nodup_cons.mp hnd).2
          have htl : tl = tl2 := by
            refine ih tl2 htlk ?_ hnd'
            intro k
            by_cases hka : k = a
            · subst hka
              rw [(lookupE_eq_none_iff tl k).mpr hna,
                (lookupE_eq_none_iff tl2 k).mpr (htlk ▸ hna)]
            · have := hl k
              have hka' : ¬ a = k := fun hh => hka hh.symm
              simpa [lookupE, hka'] using this
          rw [htl]

/-- Deep merge restricted to flat, duplicate-free objects is associative. -/
theorem flat_assoc (xs ys zs : List (String × Value))
    (_hx : FlatE xs) (hy : FlatE ys) (hz : FlatE zs)
    (nx : (keysE xs).Nodup) (ny : (keysE ys).Nodup) (nz : (keysE zs).Nodup) :
    deepMerge (deepMerge (.obj xs) (.obj ys)) (.obj zs)
      = deepMerge (.obj xs) (deepMerge (.obj ys) (.obj zs)) := by
  have hyz_flat : FlatE (mergeLoop ys zs) := flatE_mergeLoop hy hz
  have hyz_nd : (keysE (mergeLoop ys zs)).Nodup := nodup_keysE_mergeLoop zs ys ny nz
  have hxy_nd : (keysE (mergeLoop xs ys)).Nodup := nodup_keysE_mergeLoop ys xs nx ny
  show Value.obj (mergeLoop (mergeLoop xs ys) zs) = Value.obj (mergeLoop xs (mergeLoop ys zs))
  refine congrArg Value.obj (entries_ext _ _ ?_ ?_ ?_)
  · -- key order
    rw [keysE_mergeLoop zs _ nz, keysE_mergeLoop ys _ ny,
      keysE_mergeLoop (mergeLoop ys zs) _ hyz_nd, keysE_mergeLoop zs _ nz]
    rw [List.filter_append, List.append_assoc]
    congr 1
    congr 1
    rw [List.filter_filter]
    apply List.filter_congr
    intro x _
    simp [List.mem_append, List.mem_filter]
    by_cases h1 : x ∈ keysE xs <;> by_cases h2 : x ∈ keysE ys <;> simp [h1, h2]
  · -- lookups
    intro k
    rw [lookupE_mergeLoop_flat zs _ k nz hz, lookupE_mergeLoop_flat ys _ k ny hy,
      lookupE_mergeLoop_flat (mergeLoop ys zs) _ k hyz_nd hyz_flat,
      lookupE_mergeLoop_flat zs _ k nz hz]
    cases lookupE zs k <;> cases lookupE ys k <;> rfl
  · exact nodup_keysE_mergeLoop zs (mergeLoop xs ys) hxy_nd nz

/- ------------------------------------------------------------------------ -/
/-  Claim theorems                                                           -/
/- ------------------------------------------------------------------------ -/

/-- **C1**: the layer composer folds seed, base, tier, node, shared,
per-module and secrets layers left to right with later layers overriding
earlier ones; a missing layer is a no-op fold.  First conjunct: an absent
read is a no-op step.  Second conjunct: removing a file whose read is
absent from the composed file list leaves the fold unchanged.  Third
conjunct: the spec's precedence example — base `{a:1,b:{x:1}}`, tier
`{b:{x:2,y:3}}`, node `{b:{y:4}}` compose to `b = {x:2,y:4}`.  Fourth
conjunct: the secrets layer overrides the base layer. -/
theorem claim_C1_layer_composition :
    (∀ acc : Value, layerStep acc none = acc)
  ∧ (∀ (w : World) (b : Value) (fs1 fs2 : List String) (f : String),
        w.tryRead f = none →
        (fs1 ++ f :: fs2).foldl (fun acc g => layerStep acc (w.tryRead g)) b
          = (fs1 ++ fs2).foldl (fun acc g => layerStep acc (w.tryRead g)) b)
  ∧ lookupV (loadConfigPure wC1 "config" "dev" "n1" "TRP__") "b"
      = some (.obj [("x", .num 2), ("y", .num 4)])
  ∧ lookupV (loadConfigPure wC1s "config" "dev" "n1" "TRP__") "s" = some (.num 2) := by
  refine ⟨fun acc => rfl, ?_, by rfl, by rfl⟩
  intro w b fs1 fs2 f h
  induction fs1 generalizing b with
  | nil => simp [h, layerStep]
  | cons g gs ih => simp only [List.cons_append, List.foldl_cons, ih]

/-- Witness for C1 at a concrete absent file: dropping it from the list
does not change the composition. -/
theorem claim_C1_witness :
    (["config/base.yaml"] ++ "config/missing.yaml" :: []).foldl
        (fun acc g => layerStep acc (wC1.tryRead g)) (.obj [])
      = (["config/base.yaml"] ++ []).foldl
        (fun acc g => layerStep acc (wC1.tryRead g)) (.obj []) :=
  claim_C1_layer_composition.2.1 wC1 (.obj []) ["config/base.yaml"] [] "config/missing.yaml" rfl

/-- **C2**: merge semantics of `deepMerge`.  (1) If the override mentions a
key and both sides hold mappings there, the result holds their recursive
merge.  (2) Otherwise the override's value replaces the base's wholesale
(this includes sequences).  (3) Keys the override does not mention are
retained from the base unchanged.  (4) A non-mapping, non-null override
replaces the entire base value instead of raising. -/
theorem claim_C2_deep_merge_semantics :
    (∀ (bs os : List (String × Value)) (k : String) (v bv : Value),
        (keysE os).Nodup → lookupE os k = some v → lookupE bs k = some bv →
        bv.isObject = true → v.isObject = true →
        lookupV (deepMerge (.obj bs) (.obj os)) k = some (deepMerge bv v))
  ∧ (∀ (bs os : List (String × Value)) (k : String) (v : Value),
        (keysE os).Nodup → lookupE os k = some v →
        (∀ bv, lookupE bs k = some bv → ¬(bv.isObject = true ∧ v.isObject = true)) →
        lookupV (deepMerge (.obj bs) (.obj os)) k = some v)
  ∧ (∀ (bs os : List (String × Value)) (k : String),
        (keysE os).Nodup → lookupE os k = none →
        lookupV (deepMerge (.obj bs) (.obj os)) k = lookupE bs k)
  ∧ (∀ (base override : Value), override.isObject = false → override ≠ .null →
        deepMerge base override = override) := by
  refine ⟨?_, ?_, ?_, ?_⟩
  · intro bs os k v bv hnd ho hb hbo hvo
    show lookupE (mergeLoop bs os) k = _
    rw [lookupE_mergeLoop os bs k hnd, ho, hb]
    simp [mergeStep, hbo, hvo]
  · intro bs os k v hnd ho hno
    show lookupE (mergeLoop bs os) k = _
    rw [lookupE_mergeLoop os bs k hnd, ho]
    cases hb : lookupE bs k with
    | none => simp [mergeStep]
    | some bv =>
        have := hno bv hb
        have hfalse : (bv.isObject && v.isObject) = false := by
          cases h1 : bv.isObject <;> cases h2 : v.isObject <;> simp_all
        simp [mergeStep, hfalse]
  · intro bs os k hnd ho
    show lookupE (mergeLoop bs os) k = _
    rw [lookupE_mergeLoop os bs k hnd, ho]
  · intro base override hov hnull
    cases override <;> cases base <;> first | rfl | simp_all [Value.isObject]

/-- Witness for C2: a nested-mapping recursion, a sequence replacement, a
retained base key, and a scalar override of a whole mapping. -/
theorem claim_C2_witness :
    lookupV (deepMerge (.obj [("b", .obj [("x", .num 1)])])
        (.obj [("b", .obj [("y", .num 2)])])) "b"
      = some (deepMerge (.obj [("x", .num 1)]) (.obj [("y", .num 2)]))
  ∧ lookupV (deepMerge (.obj [("a", .arr [.num 1])])
        (.obj [("a", .arr [.num 2, .num 3])])) "a" = some (.arr [.num 2, .num 3])
  ∧ lookupV (deepMerge (.obj [("c", .num 7)]) (.obj [("a", .num 1)])) "c" = some (.num 7)
  ∧ deepMerge (.obj [("a", .num 1)]) (.str "s") = .str "s" :=
  ⟨claim_C2_deep_merge_semantics.1 _ _ "b" _ _ (by decide) rfl rfl rfl rfl,
   claim_C2_deep_merge_semantics.2.1 _ _ "a" _ (by decide) rfl
     (fun bv hbv => by
        have h : Value.arr [.num 1] = bv := by
          simpa [lookupE] using hbv
        simp [← h, Value.isObject]),
   claim_C2_deep_merge_semantics.2.2.1 _ _ "c" (by decide) rfl,
   claim_C2_deep_merge_semantics.2.2.2 _ _ rfl (by simp)⟩

/-- **C4, counterexample**: `deepMerge` is not associative.  With
`A = {k:{a:1}}`, `B = {k:5}`, `C = {k:{b:2}}`:
`merge(merge(A,B),C) = {k:{b:2}}` but `merge(A,merge(B,C)) = {k:{a:1,b:2}}`. -/
theorem claim_C4_counterexample :
    ¬ (deepMerge (deepMerge cexA cexB) cexC = deepMerge cexA (deepMerge cexB cexC)) := by
  intro h
  have h2 := congrArg (fun v => lookupPath v ["k", "a"]) h
  have h3 : (none : Option Value) = some (Value.num 1) := h2
  exact Option.noConfusion h3

/-- **C4, amended**: associativity does hold on flat configuration trees —
objects with duplicate-free keys none of whose values is itself a mapping —
where the type-driven branch of the merge loop cannot fire. -/
theorem claim_C4_flat_associativity (xs ys zs : List (String × Value))
    (hx : FlatE xs) (hy : FlatE ys) (hz : FlatE zs)
    (nx : (keysE xs).Nodup) (ny : (keysE ys).Nodup) (nz : (keysE zs).Nodup) :
    deepMerge (deepMerge (.obj xs) (.obj ys)) (.obj zs)
      = deepMerge (.obj xs) (deepMerge (.obj ys) (.obj zs)) :=
  flat_assoc xs ys zs hx hy hz nx ny nz

/-- Witness for the amended C4 at concrete flat objects. -/
theorem claim_C4_witness :
    deepMerge (deepMerge (.obj [("a", .num 1)]) (.obj [("a", .num 2), ("b", .bool true)]))
        (.obj [("b", .str "z")])
      = deepMerge (.obj [("a", .num 1)])
          (deepMerge (.obj [("a", .num 2), ("b", .bool true)]) (.obj [("b", .str "z")])) :=
  claim_C4_flat_associativity _ _ _ (by decide) (by decide) (by decide)
    (by decide) (by decide) (by decide)

/-- **C3**: leaf coercion of environment overrides, in the source's exact
priority order: the literal strings `"true"`/`"false"` become booleans,
then any value the full `Number()` string grammar accepts (decimal with
fraction and exponent, signed `Infinity`, hex/octal/binary prefixes)
becomes that number, and only a value `Number()` rejects as `NaN` stays
the unchanged string; and the spec's two end-to-end examples
(`TRP__db__mysql__port=5432` lands as the number `5432`,
`TRP__featureFlags__rbac=false` as the boolean `false`). -/
theorem claim_C3_env_coercion :
    coerceEnv "true" = .bool true
  ∧ coerceEnv "false" = .bool false
  ∧ (∀ (s : String) (n : JsNum), jsNumber? s = some n → coerceEnv s = .num n)
  ∧ (∀ s : String, jsNumber? s = none → s ≠ "true" → s ≠ "false" → coerceEnv s = .str s)
  ∧ lookupPath (applyEnvOverrides cfgC3 "TRP__" [("TRP__db__mysql__port", "5432")])
      ["db", "mysql", "port"] = some (.num 5432)
  ∧ lookupPath (applyEnvOverrides cfgC3 "TRP__" [("TRP__featureFlags__rbac", "false")])
      ["featureFlags", "rbac"] = some (.bool false) := by
  refine ⟨rfl, rfl, ?_, ?_, by rfl, by rfl⟩
  · intro s n h
    by_cases h1 : s = "true"
    · rw [h1, show jsNumber? "true" = none from rfl] at h
      exact Option.noConfusion h
    · by_cases h2 : s = "false"
      · rw [h2, show jsNumber? "false" = none from rfl] at h
        exact Option.noConfusion h
      · simp [coerceEnv, h1, h2, h]
  · intro s h h1 h2
    simp [coerceEnv, h, h1, h2]

/-- Witness for C3 at concrete values: a plain integer, a decimal
fraction, an exponent form, a hex literal and `-Infinity` are all coerced
to numbers, while a value `Number()` rejects stays a string. -/
theorem claim_C3_witness :
    coerceEnv "5432" = .num 5432
  ∧ coerceEnv "3.14" = .num (.fin (mkRat 157 50))
  ∧ coerceEnv "1e3" = .num 1000
  ∧ coerceEnv "0x1A" = .num 26
  ∧ coerceEnv "-Infinity" = .num .negInf
  ∧ coerceEnv "borscht" = .str "borscht" :=
  ⟨claim_C3_env_coercion.2.2.1 "5432" 5432 rfl,
   claim_C3_env_coercion.2.2.1 "3.14" (.fin (mkRat 157 50)) rfl,
   claim_C3_env_coercion.2.2.1 "1e3" 1000 rfl,
   claim_C3_env_coercion.2.2.1 "0x1A" 26 rfl,
   claim_C3_env_coercion.2.2.1 "-Infinity" .negInf rfl,
   claim_C3_env_coercion.2.2.2.1 "borscht" rfl (by decide) (by decide)⟩

/-- **C5**: the process-wide single-slot cache.  A call that finds the slot
filled returns the stored value itself, leaves the slot unchanged and
performs no filesystem/environment access (third component `false`); the
first successful resolution fills the slot with the resolved value; and a
second call after a first one returns the first call's value without
re-reading, whatever the filesystem/environment (even the resolution
context) looks like by then.  The engine exposes no operation that empties
the slot. -/
theorem claim_C5_cache_stability :
    (∀ (c : Value) (w : World) (cd e n p : String),
        loadConfigCached (some c) w cd e n p = (c, some c, false))
  ∧ (∀ (w : World) (cd e n p : String),
        loadConfigCached none w cd e n p
          = (loadConfigPure w cd e n p, some (loadConfigPure w cd e n p), true))
  ∧ (∀ (w w' : World) (cd e n p cd' e' n' p' : String),
        (loadConfigCached (loadConfigCached none w cd e n p).2.1 w' cd' e' n' p').1
            = (loadConfigCached none w cd e n p).1
          ∧ (loadConfigCached (loadConfigCached none w cd e n p).2.1 w' cd' e' n' p').2.2
            = false) := by
  exact ⟨fun c w cd e n p => rfl, fun w cd e n p => rfl,
    fun w w' cd e n p cd' e' n' p' => ⟨rfl, rfl⟩⟩

/-- **C6**: the module scoper.  With truthy caller defaults the validated
value is the schema applied to the raw module data deep-merged over the
defaults (defaults losing key-by-key); with no defaults it is the schema
applied to the raw data directly — so `configFor` fails exactly when the
schema rejects that merged raw data.  An absent module entry (or an absent
`modules` mapping altogether) resolves to the empty mapping rather than an
error, and a module with no configuration succeeds with the schema's own
defaults; a schema rejection surfaces as the validation failure. -/
theorem claim_C6_module_scoper :
    (∀ (cfg : Value) (name : String) (sch : Value → Option Value) (d : Value),
        d.truthy = true →
        configFor cfg name sch (some d) = sch (deepMerge d (moduleRaw cfg name)))
  ∧ (∀ (cfg : Value) (name : String) (sch : Value → Option Value),
        configFor cfg name sch none = sch (moduleRaw cfg name))
  ∧ (∀ (es mes : List (String × Value)) (name : String),
        lookupE es "modules" = some (.obj mes) → lookupE mes name = none →
        moduleRaw (.obj es) name = .obj [])
  ∧ (∀ (es : List (String × Value)) (name : String),
        lookupE es "modules" = none → moduleRaw (.obj es) name = .obj [])
  ∧ configFor (.obj [("modules", .obj [])]) "unconfigured-module" schemaWithDefaults none
      = some (.obj [("limit", .num 5)])
  ∧ configFor (.obj []) "m" schemaPositiveLimit none = none := by
  refine ⟨?_, fun cfg name sch => rfl, ?_, ?_, by rfl, by rfl⟩
  · intro cfg name sch d hd
    simp [configFor, hd]
  · intro es mes name h1 h2
    simp [moduleRaw, modulesOf, h1, h2]
  · intro es name h
    simp [moduleRaw, modulesOf, lookupE, h]

/-- Witness for C6: truthy defaults are merged under the module's raw data,
and a module key absent from a non-empty `modules` mapping reads back as
the empty mapping. -/
theorem claim_C6_witness :
    configFor cfgC3 "m" schemaWithDefaults (some (.obj [("q", .num 1)]))
      = schemaWithDefaults (deepMerge (.obj [("q", .num 1)]) (moduleRaw cfgC3 "m"))
  ∧ moduleRaw (.obj [("modules", .obj [("other", .num 3)])]) "unconfigured" = .obj [] :=
  ⟨claim_C6_module_scoper.1 cfgC3 "m" schemaWithDefaults _ rfl,
   claim_C6_module_scoper.2.2.1 _ [("other", .num 3)] "unconfigured" rfl rfl⟩

/-- **C7**: the source reader never raises.  A missing file, a thrown I/O
error, whitespace-only content, and a decoder failure each produce the
absent result `none`; and successfully decoded content — in particular an
empty mapping — comes back as `some`, distinguishable from absent. -/
theorem claim_C7_try_read_total :
    (∀ (fsRead : String → FsResult) (pJ pY : String → Option Value) (file : String),
        fsRead file = .missing → tryReadFile fsRead pJ pY file = none)
  ∧ (∀ (fsRead : String → FsResult) (pJ pY : String → Option Value) (file : String),
        fsRead file = .ioError → tryReadFile fsRead pJ pY file = none)
  ∧ (∀ (fsRead : String → FsResult) (pJ pY : String → Option Value) (file raw : String),
        fsRead file = .content raw → jsTrim raw = "" →
        tryReadFile fsRead pJ pY file = none)
  ∧ (∀ (fsRead : String → FsResult) (pJ pY : String → Option Value) (file raw : String),
        fsRead file = .content raw →
        (if jsEndsWith file ".json" then pJ raw else pY raw) = none →
        tryReadFile fsRead pJ pY file = none)
  ∧ (∀ (fsRead : String → FsResult) (pJ pY : String → Option Value) (file raw : String),
        fsRead file = .content raw → jsTrim raw ≠ "" →
        (if jsEndsWith file ".json" then pJ raw else pY raw) = some (.obj []) →
        tryReadFile fsRead pJ pY file = some (.obj [])) := by
  refine ⟨?_, ?_, ?_, ?_, ?_⟩
  · intro fsRead pJ pY file h
    simp [tryReadFile, h]
  · intro fsRead pJ pY file h
    simp [tryReadFile, h]
  · intro fsRead pJ pY file raw h ht
    simp [tryReadFile, h, ht]
  · intro fsRead pJ pY file raw h hp
    by_cases ht : jsTrim raw = ""
    · simp [tryReadFile, h, ht]
    · by_cases he : jsEndsWith file ".json" = true <;>
        simp_all [tryReadFile, h, ht, he]
  · intro fsRead pJ pY file raw h ht hp
    by_cases he : jsEndsWith file ".json" = true <;>
      simp_all [tryReadFile, h, ht, he]

/-- Witness for C7: a missing file reads as absent; a decoder failure reads
as absent; an empty-mapping decode reads as present. -/
theorem claim_C7_witness :
    tryReadFile (fun _ => .missing) (fun _ => none) (fun _ => none) "config/base.yaml" = none
  ∧ tryReadFile (fun _ => .content "oops: [unclosed") (fun _ => none) (fun _ => none)
      "config/base.yaml" = none
  ∧ tryReadFile (fun _ => .content "emptyMapping") (fun _ => none) (fun _ => some (.obj []))
      "config/base.yaml" = some (.obj []) :=
  ⟨claim_C7_try_read_total.1 _ _ _ "config/base.yaml" rfl,
   claim_C7_try_read_total.2.2.2.1 _ _ _ "config/base.yaml" "oops: [unclosed" rfl (by rfl),
   claim_C7_try_read_total.2.2.2.2 _ _ _ "config/base.yaml" "emptyMapping" rfl (by decide)
     (by rfl)⟩

/- ------------------------------------------------------------------------ -/
/-  Lemmas: directory discovery and module-file merging                      -/
/- ------------------------------------------------------------------------ -/

theorem findConfigDir_zero (ex : List String → Bool) (cur : List String) :
    findConfigDir ex 0 cur = none := rfl

theorem findConfigDir_succ (ex : List String → Bool) (n : Nat) (cur : List String) :
    findConfigDir ex (n + 1) cur
      = if ex ("config" :: cur) then some ("config" :: cur)
        else
          match cur with
          | [] => none
          | _ :: parent => findConfigDir ex n parent := rfl

/-- Any hit of the bounded walk is one of the first `n` candidates along
the ancestor chain, and its `config` child exists. -/
theorem findConfigDir_some_spec (ex : List String → Bool) :
    ∀ (n : Nat) (cur p : List String), findConfigDir ex n cur = some p →
      ∃ i, i < n ∧ i ≤ cur.length ∧ p = "config" :: cur.drop i ∧ ex p = true := by
  intro n
  induction n with
  | zero =>
      intro cur p h
      simp [findConfigDir_zero] at h
  | succ m ih =>
      intro cur p h
      by_cases hex : ex ("config" :: cur) = true
      · rw [findConfigDir_succ, if_pos hex] at h
        obtain rfl : "config" :: cur = p := by simpa using h
        exact ⟨0, by omega, by omega, by simp, hex⟩
      · rw [findConfigDir_succ, if_neg hex] at h
        cases cur with
        | nil => simp at h
        | cons c rest =>
            obtain ⟨i, h1, h2, h3, h4⟩ := ih rest p h
            refine ⟨i + 1, by omega, ?_, ?_, h4⟩
            · simp
              omega
            · simpa using h3

/-- If the first hit along the ancestor chain is at level `k` and the walk
has fuel past `k`, the walk returns exactly that candidate. -/
theorem findConfigDir_found_at (ex : List String → Bool) :
    ∀ (k n : Nat) (start : List String), k < n → k ≤ start.length →
      (∀ i, i < k → ex ("config" :: start.drop i) = false) →
      ex ("config" :: start.drop k) = true →
      findConfigDir ex n start = some ("config" :: start.drop k) := by
  intro k
  induction k with
  | zero =>
      intro n start hn _ _ hex
      cases n with
      | zero => omega
      | succ m =>
          rw [findConfigDir_succ, if_pos (by simpa using hex)]
          simp
  | succ j ih =>
      intro n start hn hlen hlow hex
      cases n with
      | zero => omega
      | succ m =>
          have h0 : ex ("config" :: start) = false := by
            have := hlow 0 (by omega)
            simpa using this
          cases start with
          | nil => simp at hlen
          | cons c rest =>
              rw [findConfigDir_succ, if_neg (by simp [h0])]
              have hres : findConfigDir ex m rest = some ("config" :: rest.drop j) := by
                refine ih m rest (by omega) (by simpa using hlen) ?_ (by simpa using hex)
                intro i hi
                have := hlow (i + 1) (by omega)
                simpa using this
              simpa using hres

/-- One iteration of the per-module loop touches no top-level key other
than `modules`. -/
theorem mergeModuleFile_preserves (w : World) (cd : String) (cfg : Value)
    (entry : String) {key : String} (hkey : key ≠ "modules") :
    lookupV (mergeModuleFile w cd cfg entry) key = lookupV cfg key := by
  by_cases hext : hasModuleExt entry = true
  · cases hdata : w.tryRead (cd ++ "/modules/" ++ entry) with
    | none => simp [mergeModuleFile, hext, hdata]
    | some data =>
        by_cases htr : data.truthy = true
        · cases cfg with
          | obj es =>
              simp only [mergeModuleFile, hext, hdata, htr, if_true, setProp, lookupV]
              exact lookupE_upsertE_ne es _ hkey
          | null => simp [mergeModuleFile, hext, hdata, htr, setProp]
          | bool b => simp [mergeModuleFile, hext, hdata, htr, setProp]
          | num n => simp [mergeModuleFile, hext, hdata, htr, setProp]
          | str s => simp [mergeModuleFile, hext, hdata, htr, setProp]
          | arr xs => simp [mergeModuleFile, hext, hdata, htr, setProp]
        · simp [mergeModuleFile, hext, hdata, htr]
  · simp [mergeModuleFile, hext]

/- ------------------------------------------------------------------------ -/
/-  Claim theorems (continued)                                               -/
/- ------------------------------------------------------------------------ -/

/-- **C8**: directory discovery walks at most 6 levels up from the start
looking for a child literally named `config`, stopping at a filesystem
root.  First conjunct: any result is `config` under one of the first six
ancestors (so also at most `start`'s own depth — the root stop).  Second:
when the only existing `config` directory sits 7 levels above the start it
is not found.  Third: one 5 levels above (and none lower) is found. -/
theorem claim_C8_discovery_bound :
    (∀ (ex : List String → Bool) (start p : List String),
        findConfigRoot ex start = some p →
        ∃ i, i < 6 ∧ i ≤ start.length ∧ p = "config" :: start.drop i ∧ ex p = true)
  ∧ (∀ (ex : List String → Bool) (start : List String),
        7 ≤ start.length →
        (∀ p, ex p = true → p = "config" :: start.drop 7) →
        findConfigRoot ex start = none)
  ∧ (∀ (ex : List String → Bool) (start : List String),
        5 ≤ start.length →
        (∀ i, i < 5 → ex ("config" :: start.drop i) = false) →
        ex ("config" :: start.drop 5) = true →
        findConfigRoot ex start = some ("config" :: start.drop 5)) := by
  refine ⟨?_, ?_, ?_⟩
  · intro ex start p h
    exact findConfigDir_some_spec ex 6 start p h
  · intro ex start h7 honly
    cases h : findConfigRoot ex start with
    | none => rfl
    | some p =>
        exfalso
        obtain ⟨i, hi6, hile, hp, hexp⟩ := findConfigDir_some_spec ex 6 start p h
        have h77 := honly p hexp
        rw [hp] at h77
        have hd : start.drop i = start.drop 7 := by
          simpa using h77
        have hlen := congrArg List.length hd
        simp [List.length_drop] at hlen
        omega
  · intro ex start h5 hlow hex
    exact findConfigDir_found_at ex 5 6 start (by omega) h5 hlow hex

/-- Witness for C8: with an oracle accepting exactly `config` under the
7th ancestor of a 7-deep start, discovery fails; with the same oracle and
a 5-deep start (so the target sits 5 levels up) it succeeds. -/
theorem claim_C8_witness :
    findConfigRoot (fun p => decide (p = ["config"])) ["a", "b", "c", "d", "e", "f", "g"] = none
  ∧ findConfigRoot (fun p => decide (p = ["config"])) ["a", "b", "c", "d", "e"]
      = some ["config"] :=
  ⟨claim_C8_discovery_bound.2.1 _ _ (by decide) (fun p h => of_decide_eq_true h),
   claim_C8_discovery_bound.2.2 _ _ (by decide) (by decide) (by decide)⟩

/-- **C9**: per-module files are merged only under `modules[<name>]`, never
into the top level.  First conjunct: one loop iteration leaves every
top-level key other than `modules` unchanged.  Second: so does the whole
loop.  Third and fourth: a `modules/foo.yaml` containing `{limit:5}` lands
at `modules.foo.limit = 5` while the top-level key `limit` stays absent. -/
theorem claim_C9_module_namespacing :
    (∀ (w : World) (cd : String) (cfg : Value) (entry key : String),
        key ≠ "modules" →
        lookupV (mergeModuleFile w cd cfg entry) key = lookupV cfg key)
  ∧ (∀ (w : World) (cd : String) (cfg : Value) (entries : List String) (key : String),
        key ≠ "modules" →
        lookupV (entries.foldl (fun c e => mergeModuleFile w cd c e) cfg) key
          = lookupV cfg key)
  ∧ lookupPath (loadConfigPure wC9 "config" "dev" "n1" "TRP__") ["modules", "foo", "limit"]
      = some (.num 5)
  ∧ lookupV (loadConfigPure wC9 "config" "dev" "n1" "TRP__") "limit" = none := by
  refine ⟨?_, ?_, by rfl, by rfl⟩
  · intro w cd cfg entry key hkey
    exact mergeModuleFile_preserves w cd cfg entry hkey
  · intro w cd cfg entries key hkey
    induction entries generalizing cfg with
    | nil => rfl
    | cons e es ih =>
        rw [List.foldl_cons, ih]
        exact mergeModuleFile_preserves w cd cfg e hkey

/-- Witness for C9: merging `foo.yaml` into a configuration leaves the
unrelated top-level key `a` untouched, and so does a whole loop over two
entries. -/
theorem claim_C9_witness :
    lookupV (mergeModuleFile wC9 "config" (.obj [("a", .num 1)]) "foo.yaml") "a"
      = lookupV (.obj [("a", .num 1)]) "a"
  ∧ lookupV (["foo.yaml", "bar.json"].foldl
        (fun c e => mergeModuleFile wC9 "config" c e) (.obj [("a", .num 1)])) "a"
      = lookupV (.obj [("a", .num 1)]) "a" :=
  ⟨claim_C9_module_namespacing.1 wC9 "config" _ "foo.yaml" "a" (by decide),
   claim_C9_module_namespacing.2.1 wC9 "config" _ ["foo.yaml", "bar.json"] "a" (by decide)⟩

theorem dropWhile_ws_eq_self (l : List Char)
    (h : ∀ c ∈ l, Char.isWhitespace c = false) : l.dropWhile Char.isWhitespace = l := by
  cases l with
  | nil => rfl
  | cons c cs => simp [List.dropWhile, h c (by simp)]

/-- Normalization is the identity on a segment that carries no underscore
and no whitespace — in particular it folds no letter case. -/
theorem normSeg_clean (s : String)
    (h : ∀ c ∈ s.data, c ≠ '_' ∧ Char.isWhitespace c = false) : normSeg s = s := by
  have hf : s.data.filter (fun c => decide (c ≠ '_')) = s.data :=
    List.filter_eq_self.mpr (fun a ha => decide_eq_true (h a ha).1)
  have h1 : s.data.dropWhile Char.isWhitespace = s.data :=
    dropWhile_ws_eq_self s.data (fun c hc => (h c hc).2)
  have h2 : s.data.reverse.dropWhile Char.isWhitespace = s.data.reverse :=
    dropWhile_ws_eq_self s.data.reverse (fun c hc => (h c (List.mem_reverse.mp hc)).2)
  show jsTrim ⟨s.data.filter (fun c => decide (c ≠ '_'))⟩ = s
  rw [hf]
  show (⟨((s.data.dropWhile Char.isWhitespace).reverse.dropWhile Char.isWhitespace).reverse⟩
      : String) = s
  rw [h1, h2, List.reverse_reverse]

/-- **C10**: segment normalization deletes underscores and trims
surrounding whitespace but performs no case folding, so env vars whose
segments differ only in letter case land on two distinct keys: after
applying both `TRP__db__mysql__PORT=1111` and `TRP__db__mysql__port=5432`,
the tree holds `db.mysql.PORT = 1111` and `db.mysql.port = 5432`
side by side. -/
theorem claim_C10_no_case_folding :
    (∀ s : String, (∀ c ∈ s.data, c ≠ '_' ∧ Char.isWhitespace c = false) → normSeg s = s)
  ∧ normSeg " po_rt " = "port"
  ∧ normSeg "PORT" = "PORT"
  ∧ normSeg "port" = "port"
  ∧ ("PORT" : String) ≠ "port"
  ∧ lookupPath (applyEnvOverrides cfgC3 "TRP__"
      [("TRP__db__mysql__PORT", "1111"), ("TRP__db__mysql__port", "5432")])
      ["db", "mysql", "PORT"] = some (.num 1111)
  ∧ lookupPath (applyEnvOverrides cfgC3 "TRP__"
      [("TRP__db__mysql__PORT", "1111"), ("TRP__db__mysql__port", "5432")])
      ["db", "mysql", "port"] = some (.num 5432) := by
  exact ⟨normSeg_clean, rfl, rfl, rfl, by decide, rfl, rfl⟩

/-- Witness for C10's general clause at a concrete mixed-case segment. -/
theorem claim_C10_witness : normSeg "PascalCase" = "PascalCase" :=
  claim_C10_no_case_folding.1 "PascalCase" (by decide)

end TRP
